/-
  Verification of the Manus Streamlit dashboard front-ends
  (config.py, scripts/app.py, scripts/file_manager.py, scripts/utils.py,
  task_manager.py) against their natural-language specification.

  The Python sources are shallowly embedded: pure helpers become Lean
  functions, the Streamlit handlers become explicit state-transition
  functions over a `SessionState` record, remote calls (file registration,
  byte upload, task creation, task retrieval) are supplied as per-call
  oracles, and the polling loop is run on a snapshot sequence with a fuel
  bound (the real loop has no local iteration cap).
-/
import Mathlib

namespace Manus

/-! ## Configuration (`config.py`)

`ManusConfig` mirrors the dataclass defaults, with the
`supported_file_types` list baked in as `__post_init__` installs it.
The environment-variable fallback for the API key is not modelled (it only
fills the same field). -/

structure ManusConfig where
  base_url : String := "https://api.manus.im"
  api_key : Option String := none
  default_agent_profile : String := "quality"
  default_timeout_seconds : Int := 300
  max_file_size_mb : Nat := 100
  file_expiry_hours : Nat := 48
  supported_file_types : List String :=
    ["pdf", "docx", "doc", "txt", "md",
     "csv", "xlsx", "xls", "json",
     "png", "jpg", "jpeg", "gif", "webp",
     "py", "js", "jsx", "ts", "tsx", "html", "css",
     "zip", "tar", "gz"]
  default_task_limit : Int := 50
  max_task_limit : Int := 100
deriving DecidableEq

/-- Python truthiness of the `api_key` field: `not self.api_key` is true for
`None` and for the empty string. -/
def keyTruthy : Option String → Bool
  | none => false
  | some s => !(s == "")

/-- `ManusConfig.validate` (config.py lines 50-61), branch for branch. -/
def ManusConfig.validate (c : ManusConfig) : Bool :=
  if !(keyTruthy c.api_key) then false
  else if c.default_timeout_seconds < 60 ∨ c.default_timeout_seconds > 600 then false
  else if c.default_task_limit < 1 ∨ c.default_task_limit > c.max_task_limit then false
  else true

/-- The module-level `default_config = ManusConfig()` instance. -/
def defaultConfig : ManusConfig := {}

/-- Python's `str.split(sep)` for a one-character separator, over the
character list (`''.split('.') == ['']`). -/
def splitOnChar (c : Char) : List Char → List (List Char)
  | [] => [[]]
  | x :: rest =>
    match splitOnChar c rest with
    | h :: t => if x == c then [] :: h :: t else (x :: h) :: t
    | [] => if x == c then [[], []] else [[x]]

/-- `extract_file_extension` (utils.py lines 46-50):
`filename.split('.')[-1].lower()`, or `''` when the name has no dot. -/
def extract_file_extension (filename : String) : String :=
  if !(filename.data.contains '.') then ""
  else ⟨((splitOnChar '.' filename.data).getLastD []).map Char.toLower⟩

/-! ## Task data model

A task snapshot as returned by `client.responses.retrieve`: status string,
output messages, and a metadata mapping.  Metadata values are either
numbers or strings (`MVal`); a mapping is an association list with the
first binding winning, as in a Python dict. -/

inductive MVal where
  | int (n : Int)
  | str (v : String)
deriving DecidableEq

/-- `dict.get(key)` on a metadata mapping: first binding for the key. -/
def mLookup (m : List (String × MVal)) (key : String) : Option MVal :=
  (m.find? (fun p => p.1 == key)).map (fun p => p.2)

/-- A content item of an output message, as the spec's tagged-variant
modelling of the API's polymorphic items. -/
inductive ContentItem where
  | text (s : String)
  | inputFile (fileId : String)
  | inputImage (url : String)
  | outputFile (fileName : String) (fileUrl : String)
deriving DecidableEq

structure OutMessage where
  role : String
  content : List ContentItem
deriving DecidableEq

structure Task where
  id : String
  status : String
  output : List OutMessage
  metadata : List (String × MVal)
deriving DecidableEq

/-! ## Polling loop (`poll_task_status`, app.py lines 159-204)

The loop retrieves snapshot after snapshot; we model the retrieval call as
a sequence `seq : Nat → PollStep` (`.ok` a snapshot, `.exn` a raised
transport error).  The loop body stops on status `completed`, `error` or
`pending`, and otherwise sleeps 3 seconds and retries; it has no local
iteration bound, so the embedding runs it on a fuel counter and reports
`.running` when the fuel ends with the loop still going. -/

inductive PollStep where
  | ok (t : Task)
  | exn (msg : String)
deriving DecidableEq

/-- A status on which `poll_task_status` returns (the three `return`
branches of the loop body). -/
def isTerminalStatus (s : String) : Bool :=
  s == "completed" || s == "error" || s == "pending"

/-- Result of running the loop: the returned snapshot (with the number of
retrieval calls made and the total units slept at 3 per non-terminal
poll), an abort on a raised transport error (the `except` branch shows the
error and returns `None`), or still running when the fuel ends. -/
inductive PollResult where
  | terminal (t : Task) (polls : Nat) (slept : Nat)
  | aborted (msg : String) (polls : Nat) (slept : Nat)
  | running
deriving DecidableEq

/-- The polling loop, from poll index `i` with `fuel` iterations left. -/
def pollLoop (seq : Nat → PollStep) : Nat → Nat → PollResult
  | 0, _ => .running
  | fuel + 1, i =>
    match seq i with
    | .exn m => .aborted m (i + 1) (3 * i)
    | .ok t =>
      if isTerminalStatus t.status then .terminal t (i + 1) (3 * i)
      else pollLoop seq fuel (i + 1)

/-- `poll_task_status` run from the start of the loop. -/
def poll_task_status (seq : Nat → PollStep) (fuel : Nat) : PollResult :=
  pollLoop seq fuel 0

/-- A poll index at which the retrieval succeeds with a non-terminal
status (the loop's `else` branch: sleep 3 and repeat). -/
def nonTermOk (seq : Nat → PollStep) (j : Nat) : Bool :=
  match seq j with
  | .ok t => !(isTerminalStatus t.status)
  | .exn _ => false

/-! ## Output extraction (chat handler, app.py lines 514-525)

The handler walks `completed_task.output`; for each assistant-role message
it appends every non-empty `text` item plus `"\n"` to `assistant_text` and
every `output_file` item's filename to `output_files`. -/

def extractItems : List ContentItem → String × List String → String × List String
  | [], acc => acc
  | .text s :: rest, (t, fs) =>
    extractItems rest (if s == "" then (t, fs) else (t ++ s ++ "\n", fs))
  | .outputFile n _ :: rest, (t, fs) => extractItems rest (t, fs ++ [n])
  | .inputFile _ :: rest, acc => extractItems rest acc
  | .inputImage _ :: rest, acc => extractItems rest acc

def extractMsgs : List OutMessage → String × List String → String × List String
  | [], acc => acc
  | m :: rest, acc =>
    extractMsgs rest (if m.role == "assistant" then extractItems m.content acc else acc)

/-- The extraction loop: combined reply text and generated-file names. -/
def extractOutput (out : List OutMessage) : String × List String :=
  extractMsgs out ("", [])

/-- The `text` field of a text item. -/
def textOfItem : ContentItem → Option String
  | .text s => some s
  | _ => none

/-- The `fileName` field of an `output_file` item. -/
def fileNameOfItem : ContentItem → Option String
  | .outputFile n _ => some n
  | _ => none

/-- All `text` content items of assistant-role messages, in order
(including empty ones) — the claim's reading of "exactly the text content
items". -/
def assistantTextItems : List OutMessage → List String
  | [] => []
  | m :: rest =>
    (if m.role == "assistant" then m.content.filterMap textOfItem else [])
      ++ assistantTextItems rest

/-- All `output_file` filenames of assistant-role messages, in order. -/
def assistantFileNames : List OutMessage → List String
  | [] => []
  | m :: rest =>
    (if m.role == "assistant" then m.content.filterMap fileNameOfItem else [])
      ++ assistantFileNames rest

/-- Concatenation of a list of strings (used to state what the extraction
loop accumulates). -/
def concatAll : List String → String
  | [] => ""
  | s :: rest => s ++ concatAll rest

/-- Modelled from the spec: the combined reply string as the claim words
it — the text content items of the assistant messages, newline-joined. -/
def specCombinedReply (out : List OutMessage) : String :=
  String.intercalate "\n" (assistantTextItems out)

/-- Modelled from the spec: `credit_usage` "default 0 if
absent/unparseable" — the increment the claim predicts for a given
metadata entry. -/
def specCreditOf : Option MVal → Int
  | some (.int n) => n
  | _ => 0

/-! ## File upload (`upload_file_to_manus`, file_manager.py lines 58-73 and
app.py lines 103-118)

One file to upload, bundled with the remote side's responses for it:
`regResult` is what `client.post("/files", ...)` yields (`none` for a
raised error), `putOk` whether the byte `PUT` gets a 2xx status
(`raise_for_status` raises otherwise). -/

structure FileInput where
  name : String
  size : Nat
  ftype : String
  regResult : Option (String × String)
  putOk : Bool
deriving DecidableEq

/-- A remote call made while uploading, for tracking which network
operations each file triggers. -/
inductive NetCall where
  | register (filename : String)
  | putBytes (url : String)
deriving DecidableEq

/-- `upload_file_to_manus`: register the file, `PUT` the bytes to the
returned URL, return the file id; any raised error is caught and turned
into `None`.  The second component records the remote calls made. -/
def upload_file_to_manus (f : FileInput) : Option String × List NetCall :=
  match f.regResult with
  | none => (none, [.register f.name])
  | some (fid, url) =>
    if f.putOk then (some fid, [.register f.name, .putBytes url])
    else (none, [.register f.name, .putBytes url])

/-- A per-file record built by the "Upload All Files" handler
(file_manager.py lines 253-270). -/
structure UploadRecord where
  filename : String
  file_id : Option String
  size : Nat
  timestamp : String
  status : String
deriving DecidableEq

/-- The record the handler appends for one file. -/
def mkUploadRecord (now : String) (f : FileInput) : UploadRecord :=
  match (upload_file_to_manus f).1 with
  | some fid => ⟨f.name, some fid, f.size, now, "success"⟩
  | none => ⟨f.name, none, f.size, now, "failed"⟩

/-- The "Upload All Files" loop (file_manager.py lines 247-272),
accumulating the result records, the remote calls made, and
`uploaded_count`. -/
def uploadAllGo (now : String) : List FileInput →
    List UploadRecord → List NetCall → Nat → List UploadRecord × List NetCall × Nat
  | [], records, calls, count => (records, calls, count)
  | f :: rest, records, calls, count =>
    match upload_file_to_manus f with
    | (some fid, cs) =>
      uploadAllGo now rest (records ++ [⟨f.name, some fid, f.size, now, "success"⟩])
        (calls ++ cs) (count + 1)
    | (none, cs) =>
      uploadAllGo now rest (records ++ [⟨f.name, none, f.size, now, "failed"⟩])
        (calls ++ cs) count

/-- The "Upload All Files" handler on a batch. -/
def uploadAllFiles (now : String) (files : List FileInput) :
    List UploadRecord × List NetCall × Nat :=
  uploadAllGo now files [] [] 0

/-! ## Session state (app.py lines 80-93) and the handlers that mutate it -/

/-- A conversation message dict as the chat handler builds it: the
`user` shape (app.py lines 474-481) and the `assistant` shape (lines
534-543), each with its optional trailing key. -/
inductive ConvMessage where
  | user (content : String) (timestamp : String) (files : Option (List String))
  | assistant (content : String) (task_url : String) (credits : Int)
      (timestamp : String) (output_files : Option (List String))
deriving DecidableEq

def ConvMessage.role : ConvMessage → String
  | .user .. => "user"
  | .assistant .. => "assistant"

def ConvMessage.content : ConvMessage → String
  | .user c .. => c
  | .assistant c .. => c

/-- A staged uploaded file (app.py lines 340-345): id, name, size, MIME
type. -/
structure UpFile where
  id : String
  name : String
  size : Nat
  ftype : String
deriving DecidableEq

/-- A saved conversation (app.py lines 255-260). -/
structure Conversation where
  timestamp : String
  messages : List ConvMessage
  task_count : Nat
  credits_used : Int
deriving DecidableEq

/-- The session fields the handlers touch (app.py lines 80-93; all start
empty / zero). -/
structure SessionState where
  messages : List ConvMessage := []
  current_task_id : Option String := none
  uploaded_files : List UpFile := []
  conversation_history : List Conversation := []
  total_credits_used : Int := 0
  task_count : Nat := 0
deriving DecidableEq

def initState : SessionState := {}

/-- `save_conversation_to_history` (app.py lines 252-261): push a snapshot
of the current conversation, but only when `st.session_state.messages` is
non-empty. -/
def save_conversation_to_history (s : SessionState) (now : String) : SessionState :=
  if s.messages ≠ [] then
    { s with conversation_history :=
        s.conversation_history ++
          [⟨now, s.messages, s.task_count, s.total_credits_used⟩] }
  else s

/-- What `create_task` returns on success (`response.id` and
`response.metadata` are the fields the handler reads). -/
structure CreateResp where
  id : String
  metadata : List (String × MVal)
deriving DecidableEq

/-- `response.metadata.get('task_url', '')`, kept as the string it is in
practice (the dashboard URL). -/
def taskUrlOf (m : List (String × MVal)) : String :=
  match mLookup m "task_url" with
  | some (.str u) => u
  | _ => ""

/-- The chat handler (app.py lines 463-550) as a state transition.

`create` is what `create_task` returns (`None` on a raised, caught
error); the poll loop runs over `seq` with the given fuel.  Mutation
order follows the source: the user message is stored first; on a created
task the task id and counter are set before polling; only a returned
(terminal) snapshot leads to extraction, the credit update, the stored
assistant message and the clearing of the staged files.  A metadata
`credit_usage` that is not a number makes `total_credits_used +=` raise a
`TypeError`, aborting the script run right there — the state keeps only
the mutations already made. -/
def chatFinish (s2 : SessionState) (task_url now : String)
    (ext : String × List String) (credits : Int) : SessionState :=
  let s3 := { s2 with total_credits_used := s2.total_credits_used + credits }
  let content :=
    if ext.1 ≠ "" then ext.1.trim else "✅ Task completed successfully"
  let asstMsg : ConvMessage :=
    .assistant content task_url credits now
      (if ext.2 ≠ [] then some ext.2 else none)
  { s3 with messages := s3.messages ++ [asstMsg], uploaded_files := [] }

/-- The credit update and assistant-message store (app.py lines 527-550),
by the kind of the `credit_usage` metadata entry.  A non-numeric entry
makes `total_credits_used +=` raise a `TypeError`, which aborts the script
run right there: the state keeps only the mutations already made (`s2`). -/
def chatCreditCase (s2 : SessionState) (task_url now : String)
    (ext : String × List String) : Option MVal → SessionState
  | some (.str _) => s2
  | some (.int k) => chatFinish s2 task_url now ext k
  | none => chatFinish s2 task_url now ext 0

/-- What the chat handler does with the poll loop's outcome: a `None`
(abort) or a still-running loop leaves the state as it was after task
creation; a returned snapshot is extracted and finished. -/
def chatPollCase (s2 : SessionState) (task_url now : String) : PollResult → SessionState
  | .running => s2
  | .aborted _ _ _ => s2
  | .terminal t _ _ =>
    chatCreditCase s2 task_url now (extractOutput t.output)
      (mLookup t.metadata "credit_usage")

def chatStep (s : SessionState) (now : String) (userInput : String)
    (create : Option CreateResp) (seq : Nat → PollStep) (fuel : Nat) : SessionState :=
  let userMsg : ConvMessage :=
    .user userInput now
      (if s.uploaded_files ≠ [] then some (s.uploaded_files.map (·.name)) else none)
  let s1 := { s with messages := s.messages ++ [userMsg] }
  match create with
  | none => s1
  | some resp =>
    let s2 := { s1 with current_task_id := some resp.id, task_count := s1.task_count + 1 }
    chatPollCase s2 (taskUrlOf resp.metadata) now (pollLoop seq fuel 0)

/-- The "Process All Uploads" loop body (app.py lines 335-347): stage the
file when `upload_file_to_manus` returned a truthy id. -/
def stageOf (f : FileInput) : Option UpFile :=
  match (upload_file_to_manus f).1 with
  | some fid => if fid == "" then none else some ⟨fid, f.name, f.size, f.ftype⟩
  | none => none

/-- The "Process All Uploads" handler (app.py lines 327-347): clear the
staged list, then upload each file in turn, staging the successes. -/
def processUploadsGo : List FileInput → List UpFile → List UpFile
  | [], staged => staged
  | f :: rest, staged =>
    match (upload_file_to_manus f).1 with
    | some fid =>
      processUploadsGo rest (if fid == "" then staged else staged ++ [⟨fid, f.name, f.size, f.ftype⟩])
    | none => processUploadsGo rest staged

def processUploads (s : SessionState) (batch : List FileInput) : SessionState :=
  { s with uploaded_files := processUploadsGo batch [] }

/-- One user-visible operation on the session, as fired by the handlers. -/
inductive SessionOp where
  | chat (now : String) (input : String) (create : Option CreateResp)
      (seq : Nat → PollStep) (fuel : Nat)
  | newChat (now : String)
  | loadConv (now : String) (i : Nat)
  | clearFiles
  | uploads (batch : List FileInput)

/-- Apply one operation:
`newChat` (app.py lines 367-373) saves then clears conversation, task id
and staged files; `loadConv` (lines 393-399) saves then installs the
`i`-th most recent saved conversation's messages; `clearFiles`
(lines 356-358) empties the staged list. -/
def applyOp (s : SessionState) : SessionOp → SessionState
  | .chat now input create seq fuel => chatStep s now input create seq fuel
  | .newChat now =>
    let s1 := save_conversation_to_history s now
    { s1 with messages := [], current_task_id := none, uploaded_files := [] }
  | .loadConv now i =>
    match s.conversation_history.reverse.get? i with
    | some conv =>
      let s1 := save_conversation_to_history s now
      { s1 with messages := conv.messages }
    | none => s
  | .clearFiles => { s with uploaded_files := [] }
  | .uploads batch => processUploads s batch

def applyOps (s : SessionState) (ops : List SessionOp) : SessionState :=
  ops.foldl applyOp s

/-- Modelled from the spec: the statuses the claim calls terminal
(`completed`, `error`, `pending_input`). -/
def specTerminalStatus (s : String) : Bool :=
  s == "completed" || s == "error" || s == "pending_input"

/-- Every saved conversation in the history holds a non-empty message
list. -/
def histNonempty (s : SessionState) : Bool :=
  s.conversation_history.all (fun c => !(c.messages.isEmpty))

/-- A chat operation whose snapshot sequence only ever reports
non-negative `credit_usage` values (any other operation trivially
qualifies). -/
def opCreditsNonneg : SessionOp → Prop
  | .chat _ _ _ seq _ => ∀ i t, seq i = .ok t → 0 ≤ specCreditOf (mLookup t.metadata "credit_usage")
  | _ => True

/-! ## JSON export (`export_conversation_history`, app.py lines 233-250)

The `json` branch is `json.dumps(messages, indent=2)`.  The embedding
prints the message dicts exactly as CPython's serializer does with its
defaults (`ensure_ascii=True`, two-space indent, `", "`/`": "` item and
key separators collapsing to `",\n"`/`": "` under `indent`): strings are
escaped with `\"`, `\\`, `\b`, `\f`, `\n`, `\r`, `\t` and `\uXXXX`
(lowercase hex; astral characters as a surrogate pair), characters
0x20-0x7e are literal, integers print in decimal.  The matching reader
(`json.loads` on this output) is embedded as a recursive-descent reader
of the emitted sublanguage: JSON whitespace is skipped freely, strings
are unescaped (surrogate pairs recombined), integers read back.  The
values appearing in a message dict are strings, integers and lists of
strings (`JVal`). -/

inductive JVal where
  | str (s : String)
  | int (n : Int)
  | arrStr (ss : List String)
deriving DecidableEq

def spacesL (n : Nat) : List Char := List.replicate n ' '

def hexDigitChar (n : Nat) : Char := Char.ofNat (if n < 10 then 48 + n else 87 + n)

/-- `\uXXXX`, four lowercase hex digits, for `n < 0x10000`. -/
def uEsc (n : Nat) : List Char :=
  ['\\', 'u', hexDigitChar (n / 4096 % 16), hexDigitChar (n / 256 % 16),
   hexDigitChar (n / 16 % 16), hexDigitChar (n % 16)]

/-- One character as CPython's `ensure_ascii` encoder emits it. -/
def escapeChar (c : Char) : List Char :=
  if c = '"' then ['\\', '"']
  else if c = '\\' then ['\\', '\\']
  else if c = '\x08' then ['\\', 'b']
  else if c = '\x0c' then ['\\', 'f']
  else if c = '\n' then ['\\', 'n']
  else if c = '\r' then ['\\', 'r']
  else if c = '\t' then ['\\', 't']
  else if c.toNat < 0x20 then uEsc c.toNat
  else if c.toNat < 0x7f then [c]
  else if c.toNat < 0x10000 then uEsc c.toNat
  else uEsc (0xd800 + (c.toNat - 0x10000) / 1024) ++ uEsc (0xdc00 + (c.toNat - 0x10000) % 1024)

def escChars : List Char → List Char
  | [] => []
  | c :: rest => escapeChar c ++ escChars rest

/-- A JSON string literal: quote, escaped body, quote. -/
def quoteStr (s : String) : List Char := '"' :: (escChars s.data ++ ['"'])

def digitChar (d : Nat) : Char := Char.ofNat (48 + d)

def natCharsF : Nat → Nat → List Char
  | 0, _ => []
  | fuel + 1, n =>
    if n < 10 then [digitChar n] else natCharsF fuel (n / 10) ++ [digitChar (n % 10)]

/-- A natural number's decimal digit characters (`n + 1` fuel always
suffices, since the number shrinks ten-fold each step). -/
def natChars (n : Nat) : List Char := natCharsF (n + 1) n

/-- An integer in Python's decimal notation. -/
def intChars (n : Int) : List Char :=
  if n < 0 then '-' :: natChars n.natAbs else natChars n.natAbs

/-- After an element of a string-valued array at depth `d + 1`: either the
next comma-separated element or the closing bracket on its own line. -/
def arrTail (d : Nat) : List String → List Char
  | [] => '\n' :: (spacesL (2 * d) ++ [']'])
  | s :: rest => ',' :: '\n' :: (spacesL (2 * (d + 1)) ++ (quoteStr s ++ arrTail d rest))

/-- One value as `json.dumps(..., indent=2)` prints it, `d` the nesting
depth of the value's own brackets. -/
def dumpVal (d : Nat) : JVal → List Char
  | .str s => quoteStr s
  | .int n => intChars n
  | .arrStr [] => ['[', ']']
  | .arrStr (s :: ss) =>
    '[' :: '\n' :: (spacesL (2 * (d + 1)) ++ (quoteStr s ++ arrTail d ss))

/-- After a `key: value` member of an object at depth `d`. -/
def objTail (d : Nat) : List (String × JVal) → List Char
  | [] => '\n' :: (spacesL (2 * d) ++ ['}'])
  | (k, v) :: rest =>
    ',' :: '\n' :: (spacesL (2 * (d + 1)) ++
      (quoteStr k ++ ':' :: ' ' :: (dumpVal (d + 1) v ++ objTail d rest)))

def dumpObj (d : Nat) : List (String × JVal) → List Char
  | [] => ['{', '}']
  | (k, v) :: rest =>
    '{' :: '\n' :: (spacesL (2 * (d + 1)) ++
      (quoteStr k ++ ':' :: ' ' :: (dumpVal (d + 1) v ++ objTail d rest)))

/-- After one message object of the top-level array. -/
def topTail : List (List (String × JVal)) → List Char
  | [] => '\n' :: [']']
  | m :: rest => ',' :: '\n' :: (spacesL 2 ++ (dumpObj 1 m ++ topTail rest))

def dumpTop : List (List (String × JVal)) → List Char
  | [] => ['[', ']']
  | m :: rest => '[' :: '\n' :: (spacesL 2 ++ (dumpObj 1 m ++ topTail rest))

/-- The key/value pairs of a message dict, in insertion order: the `user`
shape (app.py lines 474-481) and the `assistant` shape (lines 534-543),
each with its optional trailing key. -/
def msgPairs : ConvMessage → List (String × JVal)
  | .user content ts files =>
    [("role", .str "user"), ("content", .str content), ("timestamp", .str ts)] ++
      (match files with
       | none => []
       | some fs => [("files", .arrStr fs)])
  | .assistant content url credits ts outs =>
    [("role", .str "assistant"), ("content", .str content), ("task_url", .str url),
     ("credits", .int credits), ("timestamp", .str ts)] ++
      (match outs with
       | none => []
       | some fs => [("output_files", .arrStr fs)])

/-- `export_conversation_history(messages, "json")`:
`json.dumps(messages, indent=2)`. -/
def export_conversation_history_json (messages : List ConvMessage) : String :=
  ⟨dumpTop (messages.map msgPairs)⟩

/-! ### The reader (`json.loads` on the emitted sublanguage) -/

def isWsChar (c : Char) : Bool := c == ' ' || c == '\n' || c == '\t' || c == '\r'

def skipWs : List Char → List Char
  | [] => []
  | c :: rest => if isWsChar c then skipWs rest else c :: rest

def hexVal (c : Char) : Option Nat :=
  if 48 ≤ c.toNat ∧ c.toNat ≤ 57 then some (c.toNat - 48)
  else if 97 ≤ c.toNat ∧ c.toNat ≤ 102 then some (c.toNat - 87)
  else if 65 ≤ c.toNat ∧ c.toNat ≤ 70 then some (c.toNat - 55)
  else none

def hex4v (a b c d : Char) : Option Nat :=
  match hexVal a, hexVal b, hexVal c, hexVal d with
  | some x, some y, some z, some w => some (((x * 16 + y) * 16 + z) * 16 + w)
  | _, _, _, _ => none

/-- One escape after a `\`: the unescaped character and how many input
characters the escape consumed.  A high surrogate must be followed by an
escaped low surrogate (the combination the serializer emits for astral
characters); a lone surrogate escape is not a scalar value and is
rejected. -/
def parseEsc : List Char → Option (Char × Nat)
  | [] => none
  | c :: rest =>
    if c = 'u' then
      match rest with
      | a :: b :: d :: e :: r1 =>
        match hex4v a b d e with
        | none => none
        | some n =>
          if n < 0xd800 ∨ 0xdfff < n then some (Char.ofNat n, 5)
          else if n ≤ 0xdbff then
            match r1 with
            | c2 :: c3 :: f :: g :: h :: i :: _ =>
              if c2 = '\\' ∧ c3 = 'u' then
                match hex4v f g h i with
                | some n2 =>
                  if 0xdc00 ≤ n2 ∧ n2 ≤ 0xdfff then
                    some (Char.ofNat (0x10000 + (n - 0xd800) * 1024 + (n2 - 0xdc00)), 11)
                  else none
                | none => none
              else none
            | _ => none
          else none
      | _ => none
    else if c = '"' then some ('"', 1)
    else if c = '\\' then some ('\\', 1)
    else if c = '/' then some ('/', 1)
    else if c = 'b' then some ('\x08', 1)
    else if c = 'f' then some ('\x0c', 1)
    else if c = 'n' then some ('\n', 1)
    else if c = 'r' then some ('\r', 1)
    else if c = 't' then some ('\t', 1)
    else none

/-- The body of a string literal after the opening quote, up to the
closing quote (raw control characters are rejected, as in strict
`json.loads`).  Structural on a fuel counter; callers supply the input
length, which always suffices. -/
def parseStrBody : Nat → List Char → Option (List Char × List Char)
  | 0, _ => none
  | _ + 1, [] => none
  | fuel + 1, c :: rest =>
    if c = '"' then some ([], rest)
    else if c = '\\' then
      match parseEsc rest with
      | some (esc, k) =>
        match parseStrBody fuel (rest.drop k) with
        | some (s, r2) => some (esc :: s, r2)
        | none => none
      | none => none
    else if c.toNat < 0x20 then none
    else
      match parseStrBody fuel rest with
      | some (s, r2) => some (c :: s, r2)
      | none => none

/-- A string literal including its opening quote. -/
def parseJStr : List Char → Option (String × List Char)
  | '"' :: r => (parseStrBody (r.length + 1) r).map (fun p => (⟨p.1⟩, p.2))
  | _ => none

def isDigitC (c : Char) : Bool := decide (48 ≤ c.toNat ∧ c.toNat ≤ 57)

def takeDigitsC : List Char → List Char × List Char
  | [] => ([], [])
  | c :: rest =>
    if isDigitC c then
      let p := takeDigitsC rest
      (c :: p.1, p.2)
    else ([], c :: rest)

def digitsNum (ds : List Char) : Nat :=
  ds.foldl (fun acc c => acc * 10 + (c.toNat - 48)) 0

/-- An integer literal (the number grammar the serializer emits). -/
def parseIntC : List Char → Option (Int × List Char)
  | [] => none
  | c :: rest =>
    if c = '-' then
      let p := takeDigitsC rest
      if p.1.isEmpty then none else some (-(digitsNum p.1 : Int), p.2)
    else
      let p := takeDigitsC (c :: rest)
      if p.1.isEmpty then none else some ((digitsNum p.1 : Int), p.2)

/-- The elements of a non-empty string array, from the first element to
the closing bracket. -/
def parseArrStr : Nat → List Char → Option (List String × List Char)
  | 0, _ => none
  | fuel + 1, l =>
    match parseJStr (skipWs l) with
    | some (s, r1) =>
      match skipWs r1 with
      | ',' :: r2 =>
        match parseArrStr fuel r2 with
        | some (ss, r3) => some (s :: ss, r3)
        | none => none
      | ']' :: r2 => some ([s], r2)
      | _ => none
    | none => none

/-- One value: a string, a string array or an integer. -/
def parseVal (l : List Char) : Option (JVal × List Char) :=
  match skipWs l with
  | [] => none
  | c :: r =>
    if c = '"' then (parseJStr (c :: r)).map (fun p => (JVal.str p.1, p.2))
    else if c = '[' then
      match skipWs r with
      | [] => none
      | c2 :: r2 =>
        if c2 = ']' then some (.arrStr [], r2)
        else (parseArrStr ((c2 :: r2).length + 1) (c2 :: r2)).map
          (fun p => (JVal.arrStr p.1, p.2))
    else if c = '-' ∨ isDigitC c then
      (parseIntC (c :: r)).map (fun p => (JVal.int p.1, p.2))
    else none

/-- The members of a non-empty object, from the first key to the closing
brace. -/
def parsePairs : Nat → List Char → Option (List (String × JVal) × List Char)
  | 0, _ => none
  | fuel + 1, l =>
    match parseJStr (skipWs l) with
    | some (k, r1) =>
      match skipWs r1 with
      | ':' :: r2 =>
        match parseVal r2 with
        | some (v, r3) =>
          match skipWs r3 with
          | ',' :: r4 =>
            match parsePairs fuel r4 with
            | some (ps, r5) => some ((k, v) :: ps, r5)
            | none => none
          | '}' :: r4 => some ([(k, v)], r4)
          | _ => none
        | none => none
      | _ => none
    | none => none

def parseObj (l : List Char) : Option (List (String × JVal) × List Char) :=
  match skipWs l with
  | [] => none
  | c :: r =>
    if c = '{' then
      match skipWs r with
      | [] => none
      | c2 :: r2 =>
        if c2 = '}' then some ([], r2)
        else parsePairs ((c2 :: r2).length + 1) (c2 :: r2)
    else none

/-- The objects of a non-empty top-level array, up to the closing
bracket. -/
def parseObjList : Nat → List Char → Option (List (List (String × JVal)) × List Char)
  | 0, _ => none
  | fuel + 1, l =>
    match parseObj l with
    | some (o, r1) =>
      match skipWs r1 with
      | ',' :: r2 =>
        match parseObjList fuel r2 with
        | some (os, r3) => some (o :: os, r3)
        | none => none
      | ']' :: r2 => some ([o], r2)
      | _ => none
    | none => none

/-- A complete document: a top-level array of objects with nothing but
whitespace after it. -/
def parseTop (l : List Char) : Option (List (List (String × JVal))) :=
  match skipWs l with
  | [] => none
  | c :: r =>
    if c = '[' then
      match skipWs r with
      | [] => none
      | c2 :: r2 =>
        if c2 = ']' then (if (skipWs r2).isEmpty then some [] else none)
        else
          match parseObjList ((c2 :: r2).length + 1) (c2 :: r2) with
          | some (os, r3) => if (skipWs r3).isEmpty then some os else none
          | none => none
    else none

/-- Read a message dict back from its key/value pairs (`json.loads`
yields a dict; the emitted objects have distinct keys, so the pair list
is the dict's items in order). -/
def msgFromPairs : List (String × JVal) → Option ConvMessage
  | [("role", .str "user"), ("content", .str c), ("timestamp", .str t)] =>
    some (.user c t none)
  | [("role", .str "user"), ("content", .str c), ("timestamp", .str t),
     ("files", .arrStr fs)] =>
    some (.user c t (some fs))
  | [("role", .str "assistant"), ("content", .str c), ("task_url", .str u),
     ("credits", .int n), ("timestamp", .str t)] =>
    some (.assistant c u n t none)
  | [("role", .str "assistant"), ("content", .str c), ("task_url", .str u),
     ("credits", .int n), ("timestamp", .str t), ("output_files", .arrStr fs)] =>
    some (.assistant c u n t (some fs))
  | _ => none

def msgsFromObjs : List (List (String × JVal)) → Option (List ConvMessage)
  | [] => some []
  | o :: rest =>
    match msgFromPairs o with
    | some m =>
      match msgsFromObjs rest with
      | some ms => some (m :: ms)
      | none => none
    | none => none

/-- Parse an exported document back into the message sequence. -/
def json_loads_messages (s : String) : Option (List ConvMessage) :=
  (parseTop s.data).bind msgsFromObjs

/-- The {role, content} pair of a message. -/
def roleContent (m : ConvMessage) : String × String := (m.role, m.content)

/-- A list that does not begin with a decimal digit (nothing that could
extend a number). -/
def notDigitHead : List Char → Bool
  | [] => true
  | c :: _ => !isDigitC c

/-! ## Concrete runs used as counterexamples and witnesses -/

def taskPendingInputC1 : Task := ⟨"task-a", "pending_input", [], []⟩

def taskCompletedC1 : Task := ⟨"task-a", "completed", [], []⟩

/-- A retrieval sequence whose first snapshot is `pending_input`. -/
def seqC1 : Nat → PollStep :=
  fun n => if n == 0 then .ok taskPendingInputC1 else .ok taskCompletedC1

def taskRunningW : Task := ⟨"task-b", "running", [], []⟩

def taskDoneW : Task :=
  ⟨"task-b", "completed", [⟨"assistant", [.text "Done."]⟩], [("credit_usage", .int 2)]⟩

/-- Two `running` snapshots, then `completed`. -/
def seqW : Nat → PollStep :=
  fun n => if n < 2 then .ok taskRunningW else .ok taskDoneW

def taskDoneC3 : Task :=
  ⟨"task-c", "completed", [⟨"assistant", [.text "Done."]⟩], [("credit_usage", .int 2)]⟩

def seqC3 : Nat → PollStep := fun _ => .ok taskDoneC3

def respC3 : CreateResp := ⟨"task-c", [("task_url", .str "https://manus.im/app/task-c")]⟩

/-- A completed task whose metadata reports a negative credit usage. -/
def taskNegC4 : Task := ⟨"task-d", "completed", [], [("credit_usage", .int (-5))]⟩

/-- One `running` snapshot, then the retrieval call raises. -/
def seqC7 : Nat → PollStep :=
  fun n => if n == 0 then .ok ⟨"task-e", "running", [], []⟩ else .exn "Connection aborted"

/-- A 200 MB file with an extension outside the configured allow-list,
whose remote steps would both succeed. -/
def bigFileC5 : FileInput :=
  ⟨"big.bin", 209715200, "application/octet-stream",
   some ("file-001", "https://upload.manus.im/slot1"), true⟩

/-! ## Helper lemmas about the polling loop -/

theorem pollLoop_terminal (seq : Nat → PollStep) :
    ∀ (fuel k i : Nat) (t : Task), (∀ j, k ≤ j → j < i → nonTermOk seq j = true) →
    k ≤ i → seq i = .ok t → isTerminalStatus t.status = true → i - k < fuel →
    pollLoop seq fuel k = .terminal t (i + 1) (3 * i) := by
  intro fuel
  induction fuel with
  | zero => intro k i t _ _ _ _ hf; omega
  | succ fuel ih =>
    intro k i t hpre hki hi ht hf
    rcases Nat.eq_or_lt_of_le hki with rfl | hlt
    · simp [pollLoop, hi, ht]
    · have hk := hpre k le_rfl hlt
      cases hk2 : seq k with
      | exn m => simp [nonTermOk, hk2] at hk
      | ok tk =>
        simp only [nonTermOk, hk2, Bool.not_eq_true'] at hk
        simp only [pollLoop, hk2, hk, if_false, Bool.false_eq_true]
        exact ih (k + 1) i t (fun j h1 h2 => hpre j (by omega) h2) (by omega) hi ht (by omega)

theorem pollLoop_aborted (seq : Nat → PollStep) :
    ∀ (fuel k i : Nat) (m : String), (∀ j, k ≤ j → j < i → nonTermOk seq j = true) →
    k ≤ i → seq i = .exn m → i - k < fuel →
    pollLoop seq fuel k = .aborted m (i + 1) (3 * i) := by
  intro fuel
  induction fuel with
  | zero => intro k i m _ _ _ hf; omega
  | succ fuel ih =>
    intro k i m hpre hki hi hf
    rcases Nat.eq_or_lt_of_le hki with rfl | hlt
    · simp [pollLoop, hi]
    · have hk := hpre k le_rfl hlt
      cases hk2 : seq k with
      | exn m2 => simp [nonTermOk, hk2] at hk
      | ok tk =>
        simp only [nonTermOk, hk2, Bool.not_eq_true'] at hk
        simp only [pollLoop, hk2, hk, if_false, Bool.false_eq_true]
        exact ih (k + 1) i m (fun j h1 h2 => hpre j (by omega) h2) (by omega) hi (by omega)

theorem pollLoop_running (seq : Nat → PollStep) :
    ∀ (fuel k : Nat), (∀ j, k ≤ j → j < k + fuel → nonTermOk seq j = true) →
    pollLoop seq fuel k = .running := by
  intro fuel
  induction fuel with
  | zero => intro k _; rfl
  | succ fuel ih =>
    intro k hpre
    have hk := hpre k le_rfl (by omega)
    cases hk2 : seq k with
    | exn m => simp [nonTermOk, hk2] at hk
    | ok tk =>
      simp only [nonTermOk, hk2, Bool.not_eq_true'] at hk
      simp only [pollLoop, hk2, hk, if_false, Bool.false_eq_true]
      exact ih (k + 1) (fun j h1 h2 => hpre j (by omega) (by omega))

/-- The loop only returns snapshots the retrieval call produced, and only
terminal ones. -/
theorem pollLoop_terminal_src (seq : Nat → PollStep) :
    ∀ (fuel k : Nat) (t : Task) (p e : Nat),
    pollLoop seq fuel k = .terminal t p e →
    ∃ i, seq i = .ok t ∧ isTerminalStatus t.status = true := by
  intro fuel
  induction fuel with
  | zero => intro k t p e h; simp [pollLoop] at h
  | succ fuel ih =>
    intro k t p e h
    simp only [pollLoop] at h
    split at h
    · exact absurd h (by simp)
    · rename_i tk hk
      split at h
      · rename_i hterm
        cases h
        exact ⟨k, hk, hterm⟩
      · exact ih (k + 1) t p e h

/-! ## Helper lemmas about output extraction -/

theorem concatAll_append (a b : List String) :
    concatAll (a ++ b) = concatAll a ++ concatAll b := by
  induction a with
  | nil => simp [concatAll]
  | cons x xs ih => simp [concatAll, ih, String.append_assoc]

theorem extractItems_spec (items : List ContentItem) :
    ∀ (t : String) (fs : List String),
    extractItems items (t, fs) =
      (t ++ concatAll (((items.filterMap textOfItem).filter
          (fun s => !(s == ""))).map (fun s => s ++ "\n")),
       fs ++ items.filterMap fileNameOfItem) := by
  induction items with
  | nil => intro t fs; simp [extractItems, concatAll]
  | cons it rest ih =>
    intro t fs
    cases it with
    | text s =>
      by_cases hs : s == ""
      · simp only [extractItems, hs, if_true]
        rw [ih]
        simp [textOfItem, fileNameOfItem, hs]
      · simp only [extractItems, hs, if_false, Bool.false_eq_true]
        rw [ih]
        simp [textOfItem, fileNameOfItem, hs, concatAll, String.append_assoc]
    | inputFile fid => rw [extractItems, ih]; simp [textOfItem, fileNameOfItem]
    | inputImage url => rw [extractItems, ih]; simp [textOfItem, fileNameOfItem]
    | outputFile n u =>
      rw [extractItems, ih]
      simp [textOfItem, fileNameOfItem, List.append_assoc]

theorem extractMsgs_spec (out : List OutMessage) :
    ∀ (t : String) (fs : List String),
    extractMsgs out (t, fs) =
      (t ++ concatAll (((assistantTextItems out).filter
          (fun s => !(s == ""))).map (fun s => s ++ "\n")),
       fs ++ assistantFileNames out) := by
  induction out with
  | nil => intro t fs; simp [extractMsgs, assistantTextItems, assistantFileNames, concatAll]
  | cons m rest ih =>
    intro t fs
    by_cases hrole : m.role == "assistant"
    · simp only [extractMsgs, hrole, if_true, extractItems_spec]
      rw [ih]
      simp only [assistantTextItems, assistantFileNames, hrole, if_true]
      simp [List.filter_append, List.map_append, concatAll_append,
        String.append_assoc, List.append_assoc]
    · simp only [extractMsgs, hrole, if_false, Bool.false_eq_true]
      rw [ih]
      simp [assistantTextItems, assistantFileNames, hrole]

/-! ## Helper lemmas about the upload handlers -/

theorem uploadAllGo_records (now : String) (files : List FileInput) :
    ∀ (records : List UploadRecord) (calls : List NetCall) (count : Nat),
    (uploadAllGo now files records calls count).1 =
      records ++ files.map (mkUploadRecord now) := by
  induction files with
  | nil => intro records calls count; simp [uploadAllGo]
  | cons f rest ih =>
    intro records calls count
    cases hup : upload_file_to_manus f with
    | mk fid cs =>
      cases fid with
      | some v =>
        simp only [uploadAllGo, hup]
        rw [ih]
        simp [mkUploadRecord, hup]
      | none =>
        simp only [uploadAllGo, hup]
        rw [ih]
        simp [mkUploadRecord, hup]

theorem processUploadsGo_spec (files : List FileInput) :
    ∀ (staged : List UpFile),
    processUploadsGo files staged = staged ++ files.filterMap stageOf := by
  induction files with
  | nil => intro staged; simp [processUploadsGo]
  | cons f rest ih =>
    intro staged
    cases hup : (upload_file_to_manus f).1 with
    | some fid =>
      by_cases hid : fid == ""
      · simp only [processUploadsGo, hup, hid, if_true]
        rw [ih]
        simp [stageOf, hup, hid]
      · simp only [processUploadsGo, hup, hid, if_false, Bool.false_eq_true]
        rw [ih]
        simp [stageOf, hup, hid]
    | none =>
      simp only [processUploadsGo, hup]
      rw [ih]
      simp [stageOf, hup]

/-! ## Helper lemmas about the session operations -/

theorem chatStep_history (s : SessionState) (now input : String)
    (create : Option CreateResp) (seq : Nat → PollStep) (fuel : Nat) :
    (chatStep s now input create seq fuel).conversation_history =
      s.conversation_history := by
  simp only [chatStep]
  cases create with
  | none => rfl
  | some resp =>
    cases pollLoop seq fuel 0 with
    | running => rfl
    | aborted m p e => rfl
    | terminal t p e =>
      simp only [chatPollCase]
      cases mLookup t.metadata "credit_usage" with
      | none => rfl
      | some v => cases v <;> rfl

theorem chatStep_total_mono (s : SessionState) (now input : String)
    (create : Option CreateResp) (seq : Nat → PollStep) (fuel : Nat)
    (h : ∀ i t, seq i = .ok t → 0 ≤ specCreditOf (mLookup t.metadata "credit_usage")) :
    s.total_credits_used ≤ (chatStep s now input create seq fuel).total_credits_used := by
  simp only [chatStep]
  cases create with
  | none => simp
  | some resp =>
    cases hpoll : pollLoop seq fuel 0 with
    | running => simp [chatPollCase]
    | aborted m p e => simp [chatPollCase]
    | terminal t p e =>
      obtain ⟨i, hi, _⟩ := pollLoop_terminal_src seq fuel 0 t p e hpoll
      have hcred := h i t hi
      simp only [chatPollCase]
      cases hm : mLookup t.metadata "credit_usage" with
      | none => simp [chatCreditCase, chatFinish]
      | some v =>
        cases v with
        | int k =>
          rw [hm] at hcred
          simp only [specCreditOf] at hcred
          exact le_add_of_nonneg_right hcred
        | str v => simp [chatCreditCase]

theorem applyOp_total_mono (s : SessionState) (op : SessionOp)
    (h : opCreditsNonneg op) :
    s.total_credits_used ≤ (applyOp s op).total_credits_used := by
  cases op with
  | chat now input create seq fuel => exact chatStep_total_mono s now input create seq fuel h
  | newChat now =>
    simp only [applyOp, save_conversation_to_history]
    split <;> simp
  | loadConv now i =>
    simp only [applyOp]
    cases s.conversation_history.reverse.get? i with
    | some conv =>
      simp only [save_conversation_to_history]
      split <;> simp
    | none => simp
  | clearFiles => simp [applyOp]
  | uploads batch => simp [applyOp, processUploads]

theorem applyOps_total_mono (ops : List SessionOp) :
    ∀ (s : SessionState), (∀ op ∈ ops, opCreditsNonneg op) →
    s.total_credits_used ≤ (applyOps s ops).total_credits_used := by
  induction ops with
  | nil => intro s _; simp [applyOps]
  | cons op rest ih =>
    intro s h
    have h1 := applyOp_total_mono s op (h op (by simp))
    have h2 := ih (applyOp s op) (fun o ho => h o (by simp [ho]))
    calc s.total_credits_used ≤ (applyOp s op).total_credits_used := h1
      _ ≤ _ := h2

theorem save_hist_nonempty (s : SessionState) (now : String)
    (h : histNonempty s = true) :
    histNonempty (save_conversation_to_history s now) = true := by
  simp only [save_conversation_to_history]
  split
  · rename_i hmsg
    simp only [histNonempty, List.all_append, List.all_cons, List.all_nil] at h ⊢
    simp [h, hmsg]
  · exact h

theorem applyOp_hist_nonempty (s : SessionState) (op : SessionOp)
    (h : histNonempty s = true) :
    histNonempty (applyOp s op) = true := by
  cases op with
  | chat now input create seq fuel =>
    have := chatStep_history s now input create seq fuel
    simp only [applyOp, histNonempty] at h ⊢
    rw [this]
    exact h
  | newChat now =>
    simp only [applyOp]
    have := save_hist_nonempty s now h
    simpa [histNonempty] using this
  | loadConv now i =>
    simp only [applyOp]
    cases s.conversation_history.reverse.get? i with
    | some conv =>
      have := save_hist_nonempty s now h
      simpa [histNonempty] using this
    | none => exact h
  | clearFiles => simpa [applyOp, histNonempty] using h
  | uploads batch => simpa [applyOp, processUploads, histNonempty] using h

theorem applyOps_hist_nonempty (ops : List SessionOp) :
    ∀ (s : SessionState), histNonempty s = true →
    histNonempty (applyOps s ops) = true := by
  induction ops with
  | nil => intro s h; simpa [applyOps] using h
  | cons op rest ih =>
    intro s h
    exact ih (applyOp s op) (applyOp_hist_nonempty s op h)

/-! ## Helper lemmas for the JSON round-trip: characters and strings -/

theorem char_valid_trichotomy (c : Char) :
    c.toNat < 0xd800 ∨ (0xdfff < c.toNat ∧ c.toNat < 0x110000) := c.valid

theorem toNat_ofNat_valid (n : Nat)
    (h : n < 0xd800 ∨ (0xdfff < n ∧ n < 0x110000)) :
    (Char.ofNat n).toNat = n := by
  have hv : n.isValidChar := h
  simp only [Char.ofNat, hv, dif_pos]
  simp only [Char.ofNatAux, Char.toNat, UInt32.toNat]
  simp [BitVec.toNat_ofNatLt]

theorem hexVal_hexDigitChar (d : Nat) (h : d < 16) :
    hexVal (hexDigitChar d) = some d := by
  interval_cases d <;> decide

theorem hexVal_hexDigitChar_mod (m : Nat) :
    hexVal (hexDigitChar (m % 16)) = some (m % 16) :=
  hexVal_hexDigitChar _ (Nat.mod_lt _ (by omega))

theorem hex4v_uEsc_digits (n : Nat) (h : n < 65536) :
    hex4v (hexDigitChar (n / 4096 % 16)) (hexDigitChar (n / 256 % 16))
      (hexDigitChar (n / 16 % 16)) (hexDigitChar (n % 16)) = some n := by
  simp only [hex4v, hexVal_hexDigitChar_mod]
  congr 1
  omega

/-- One step of `parseStrBody` through a backslash escape. -/
theorem parseStrBody_esc_step (fuel : Nat) (tail rest s2 r2 : List Char) (c : Char) (k : Nat)
    (hesc : parseEsc tail = some (c, k)) (hdrop : tail.drop k = rest)
    (h : parseStrBody fuel rest = some (s2, r2)) :
    parseStrBody (fuel + 1) ('\\' :: tail) = some (c :: s2, r2) := by
  rw [parseStrBody]
  rw [if_neg (by decide : ¬('\\' : Char) = '"'), if_pos rfl]
  rw [hesc]
  simp only [hdrop, h]

/-- `parseEsc` undoes `uEsc` for a valid scalar below 0x10000. -/
theorem parseEsc_uEsc (n : Nat) (hn : n < 65536) (hval : n < 0xd800 ∨ 0xdfff < n)
    (r : List Char) :
    parseEsc ('u' :: hexDigitChar (n / 4096 % 16) :: hexDigitChar (n / 256 % 16) ::
      hexDigitChar (n / 16 % 16) :: hexDigitChar (n % 16) :: r) = some (Char.ofNat n, 5) := by
  rw [parseEsc]
  rw [if_pos rfl]
  simp only [hex4v_uEsc_digits n hn]
  rw [if_pos hval]

/-- `parseEsc` recombines the surrogate-pair escape of an astral
character. -/
theorem parseEsc_surrogates (m : Nat) (hm : m < 0x100000) (r : List Char) :
    parseEsc ('u' :: hexDigitChar ((0xd800 + m / 1024) / 4096 % 16) ::
      hexDigitChar ((0xd800 + m / 1024) / 256 % 16) ::
      hexDigitChar ((0xd800 + m / 1024) / 16 % 16) ::
      hexDigitChar ((0xd800 + m / 1024) % 16) ::
      ('\\' :: 'u' :: hexDigitChar ((0xdc00 + m % 1024) / 4096 % 16) ::
        hexDigitChar ((0xdc00 + m % 1024) / 256 % 16) ::
        hexDigitChar ((0xdc00 + m % 1024) / 16 % 16) ::
        hexDigitChar ((0xdc00 + m % 1024) % 16) :: r)) =
      some (Char.ofNat (0x10000 + m), 11) := by
  have hdiv : m / 1024 ≤ 0x3ff := by omega
  have hmod : m % 1024 < 1024 := Nat.mod_lt _ (by omega)
  rw [parseEsc]
  rw [if_pos rfl]
  simp only [hex4v_uEsc_digits (0xd800 + m / 1024) (by omega)]
  rw [if_neg (by omega)]
  rw [if_pos (by omega)]
  rw [if_pos (by decide)]
  simp only [hex4v_uEsc_digits (0xdc00 + m % 1024) (by omega)]
  rw [if_pos (by omega)]
  have harith : 0x10000 + (0xd800 + m / 1024 - 0xd800) * 1024 +
      (0xdc00 + m % 1024 - 0xdc00) = 0x10000 + m := by omega
  rw [harith]

set_option maxHeartbeats 2000000 in
theorem parseStrBody_escape (c : Char) (fuel : Nat) (rest : List Char)
    (s2 r2 : List Char) (h : parseStrBody fuel rest = some (s2, r2)) :
    parseStrBody (fuel + 1) (escapeChar c ++ rest) = some (c :: s2, r2) := by
  have hval := char_valid_trichotomy c
  rw [escapeChar]
  split_ifs with h1 h2 h3 h4 h5 h6 h7 h8 h9 h10
  · subst h1; exact parseStrBody_esc_step fuel _ rest s2 r2 _ 1 rfl rfl h
  · subst h2; exact parseStrBody_esc_step fuel _ rest s2 r2 _ 1 rfl rfl h
  · subst h3; exact parseStrBody_esc_step fuel _ rest s2 r2 _ 1 rfl rfl h
  · subst h4; exact parseStrBody_esc_step fuel _ rest s2 r2 _ 1 rfl rfl h
  · subst h5; exact parseStrBody_esc_step fuel _ rest s2 r2 _ 1 rfl rfl h
  · subst h6; exact parseStrBody_esc_step fuel _ rest s2 r2 _ 1 rfl rfl h
  · subst h7; exact parseStrBody_esc_step fuel _ rest s2 r2 _ 1 rfl rfl h
  · -- other control characters: \u00xx
    simp only [uEsc, List.cons_append, List.nil_append]
    refine parseStrBody_esc_step fuel _ rest s2 r2 c 5 ?_ rfl h
    have := parseEsc_uEsc c.toNat (by omega) (by omega) rest
    rwa [Char.ofNat_toNat] at this
  · -- printable ASCII: the character itself
    simp only [List.cons_append, List.nil_append]
    rw [parseStrBody]
    rw [if_neg h1, if_neg h2, if_neg (by omega : ¬c.toNat < 0x20)]
    simp only [h]
  · -- BMP beyond ASCII: \uxxxx
    simp only [uEsc, List.cons_append, List.nil_append]
    refine parseStrBody_esc_step fuel _ rest s2 r2 c 5 ?_ rfl h
    have := parseEsc_uEsc c.toNat (by omega) (by omega) rest
    rwa [Char.ofNat_toNat] at this
  · -- astral plane: surrogate pair \uhhhh\ullll
    simp only [uEsc, List.cons_append, List.nil_append, List.append_assoc]
    refine parseStrBody_esc_step fuel _ rest s2 r2 c 11 ?_ rfl h
    have hm : c.toNat - 0x10000 < 0x100000 := by omega
    have := parseEsc_surrogates (c.toNat - 0x10000) hm rest
    rw [show 0x10000 + (c.toNat - 0x10000) = c.toNat by omega, Char.ofNat_toNat] at this
    exact this

theorem parseStrBody_escChars (cs : List Char) :
    ∀ (fuel : Nat) (rest : List Char), cs.length < fuel →
    parseStrBody fuel (escChars cs ++ ('"' :: rest)) = some (cs, rest) := by
  induction cs with
  | nil =>
    intro fuel rest h
    match fuel, h with
    | f + 1, _ => simp [escChars, parseStrBody]
  | cons c cs' ih =>
    intro fuel rest h
    match fuel, h with
    | f + 1, h =>
      rw [escChars, List.append_assoc]
      exact parseStrBody_escape c f _ _ _ (ih f rest (by simpa using Nat.lt_of_succ_lt_succ h))

set_option maxHeartbeats 2000000 in
theorem escapeChar_len (c : Char) : 1 ≤ (escapeChar c).length := by
  rw [escapeChar]
  split_ifs <;> simp [uEsc]

theorem escChars_len (cs : List Char) : cs.length ≤ (escChars cs).length := by
  induction cs with
  | nil => simp [escChars]
  | cons c cs' ih =>
    rw [escChars]
    have := escapeChar_len c
    simp only [List.length_append, List.length_cons]
    omega

theorem parseJStr_quote (s : String) (rest : List Char) :
    parseJStr (quoteStr s ++ rest) = some (s, rest) := by
  rw [quoteStr]
  simp only [List.cons_append, List.append_assoc, List.singleton_append, List.nil_append]
  rw [parseJStr]
  rw [parseStrBody_escChars s.data _ rest
    (by have := escChars_len s.data; simp only [List.length_append, List.length_cons]; omega)]
  rfl

/-! ## Helper lemmas for the JSON round-trip: whitespace and numbers -/

theorem skipWs_not_ws {c : Char} (h : isWsChar c = false) (l : List Char) :
    skipWs (c :: l) = c :: l := by
  rw [skipWs, if_neg (by simp [h])]

theorem skipWs_space (l : List Char) : skipWs (' ' :: l) = skipWs l := by
  rw [skipWs, if_pos (by decide)]

theorem skipWs_nl (l : List Char) : skipWs ('\n' :: l) = skipWs l := by
  rw [skipWs, if_pos (by decide)]

theorem skipWs_spaces (n : Nat) (l : List Char) : skipWs (spacesL n ++ l) = skipWs l := by
  induction n with
  | zero => simp [spacesL]
  | succ k ih =>
    rw [spacesL, List.replicate_succ, List.cons_append, skipWs_space]
    exact ih

theorem notDigitHead_comma (x : List Char) : notDigitHead (',' :: x) = true := by
  rw [notDigitHead]; decide

theorem notDigitHead_nl (x : List Char) : notDigitHead ('\n' :: x) = true := by
  rw [notDigitHead]; decide

theorem isDigitC_facts {c : Char} (h : isDigitC c = true) :
    c ≠ '"' ∧ c ≠ '[' ∧ c ≠ '-' ∧ isWsChar c = false := by
  simp only [isDigitC, decide_eq_true_eq] at h
  refine ⟨?_, ?_, ?_, ?_⟩
  · intro hq; subst hq; exact absurd h (by decide)
  · intro hq; subst hq; exact absurd h (by decide)
  · intro hq; subst hq; exact absurd h (by decide)
  · simp only [isWsChar, Bool.or_eq_false_iff, beq_eq_false_iff_ne]
    refine ⟨⟨⟨?_, ?_⟩, ?_⟩, ?_⟩ <;> (intro hq; subst hq; exact absurd h (by decide))

theorem digitChar_isDigit (d : Nat) (h : d < 10) :
    isDigitC (digitChar d) = true ∧ (digitChar d).toNat = 48 + d := by
  interval_cases d <;> exact ⟨by decide, by decide⟩

theorem natCharsF_congr : ∀ (f1 f2 n : Nat), n < f1 → n < f2 →
    natCharsF f1 n = natCharsF f2 n := by
  intro f1
  induction f1 with
  | zero => intro f2 n h1 _; omega
  | succ f1 ih =>
    intro f2 n h1 h2
    match f2, h2 with
    | g + 1, h2 =>
      rw [natCharsF, natCharsF]
      by_cases hn : n < 10
      · rw [if_pos hn, if_pos hn]
      · rw [if_neg hn, if_neg hn, ih g (n / 10) (by omega) (by omega)]

theorem natChars_unfold (n : Nat) :
    natChars n = (if n < 10 then [] else natChars (n / 10)) ++ [digitChar (n % 10)] := by
  rw [natChars, natCharsF]
  by_cases h : n < 10
  · rw [if_pos h, if_pos h, List.nil_append, Nat.mod_eq_of_lt h]
  · rw [if_neg h, if_neg h]
    rw [show natChars (n / 10) = natCharsF (n / 10 + 1) (n / 10) from rfl]
    rw [natCharsF_congr n (n / 10 + 1) (n / 10) (by omega) (by omega)]

theorem natChars_ne_nil (n : Nat) : natChars n ≠ [] := by
  rw [natChars_unfold]
  simp

theorem natChars_digits (n : Nat) : ∀ c ∈ natChars n, isDigitC c = true := by
  induction n using Nat.strongRecOn with
  | _ n ih =>
    rw [natChars_unfold]
    intro c hc
    rcases List.mem_append.mp hc with hin | hin
    · by_cases h10 : n < 10
      · simp [h10] at hin
      · rw [if_neg h10] at hin
        exact ih (n / 10) (by omega) c hin
    · rw [List.mem_singleton] at hin
      subst hin
      exact (digitChar_isDigit _ (Nat.mod_lt _ (by omega))).1

theorem natChars_head (n : Nat) :
    ∃ c t, natChars n = c :: t ∧ isDigitC c = true := by
  match h : natChars n with
  | [] => exact absurd h (natChars_ne_nil n)
  | c :: t =>
    refine ⟨c, t, rfl, natChars_digits n c ?_⟩
    rw [h]
    exact List.mem_cons_self c t

theorem digitsNum_append_one (xs : List Char) (c : Char) :
    digitsNum (xs ++ [c]) = digitsNum xs * 10 + (c.toNat - 48) := by
  simp [digitsNum, List.foldl_append]

theorem digitsNum_natChars (n : Nat) : digitsNum (natChars n) = n := by
  induction n using Nat.strongRecOn with
  | _ n ih =>
    rw [natChars_unfold]
    by_cases h10 : n < 10
    · rw [if_pos h10, List.nil_append]
      have := (digitChar_isDigit (n % 10) (Nat.mod_lt _ (by omega))).2
      simp only [digitsNum, List.foldl_cons, List.foldl_nil]
      omega
    · rw [if_neg h10, digitsNum_append_one, ih (n / 10) (by omega)]
      have := (digitChar_isDigit (n % 10) (Nat.mod_lt _ (by omega))).2
      omega

theorem takeDigitsC_run (ds : List Char) (rest : List Char)
    (hds : ∀ c ∈ ds, isDigitC c = true) (hrest : notDigitHead rest = true) :
    takeDigitsC (ds ++ rest) = (ds, rest) := by
  induction ds with
  | nil =>
    cases rest with
    | nil => rfl
    | cons c t =>
      rw [notDigitHead, Bool.not_eq_true'] at hrest
      rw [List.nil_append, takeDigitsC, if_neg (by simp [hrest])]
  | cons c t ih =>
    have hc : isDigitC c = true := hds c (by simp)
    rw [List.cons_append, takeDigitsC, if_pos (by simp [hc])]
    rw [ih (fun x hx => hds x (by simp [hx]))]

theorem parseIntC_intChars (n : Int) (rest : List Char)
    (hrest : notDigitHead rest = true) :
    parseIntC (intChars n ++ rest) = some (n, rest) := by
  rw [intChars]
  by_cases hn : n < 0
  · rw [if_pos hn, List.cons_append, parseIntC, if_pos rfl]
    rw [takeDigitsC_run _ rest (natChars_digits _) hrest]
    rw [if_neg (by simp [natChars_ne_nil])]
    rw [digitsNum_natChars]
    simp only [Option.some.injEq, Prod.mk.injEq]
    exact ⟨by omega, trivial⟩
  · rw [if_neg hn]
    obtain ⟨c0, t0, hn0, hc0⟩ := natChars_head n.natAbs
    obtain ⟨_, _, hminus, _⟩ := isDigitC_facts hc0
    rw [hn0, List.cons_append, parseIntC, if_neg hminus]
    have htake : takeDigitsC (c0 :: (t0 ++ rest)) = (c0 :: t0, rest) := by
      have := takeDigitsC_run (natChars n.natAbs) rest (natChars_digits _) hrest
      rwa [hn0, List.cons_append] at this
    rw [htake]
    rw [if_neg (by simp)]
    have hd : digitsNum (c0 :: t0) = n.natAbs := by
      have := digitsNum_natChars n.natAbs
      rwa [hn0] at this
    rw [hd]
    simp only [Option.some.injEq, Prod.mk.injEq]
    exact ⟨by omega, trivial⟩

/-! ## Helper lemmas for the JSON round-trip: values and containers -/

theorem parseVal_str_arm (l r : List Char) (hl : skipWs l = '"' :: r) :
    parseVal l = (parseJStr ('"' :: r)).map (fun p => (JVal.str p.1, p.2)) := by
  simp [parseVal, hl]

theorem parseVal_arr_nil_arm (l r r2 : List Char)
    (hl : skipWs l = '[' :: r) (hr : skipWs r = ']' :: r2) :
    parseVal l = some (.arrStr [], r2) := by
  simp [parseVal, hl, hr]

theorem parseVal_arr_cons_arm (l r r2 : List Char) (c2 : Char)
    (hl : skipWs l = '[' :: r) (hr : skipWs r = c2 :: r2) (hc2 : ¬c2 = ']') :
    parseVal l = (parseArrStr ((c2 :: r2).length + 1) (c2 :: r2)).map
      (fun p => (JVal.arrStr p.1, p.2)) := by
  simp [parseVal, hl, hr, hc2]

theorem parseVal_int_arm (l r : List Char) (c : Char)
    (hl : skipWs l = c :: r) (h1 : ¬c = '"') (h2 : ¬c = '[')
    (h3 : c = '-' ∨ isDigitC c) :
    parseVal l = (parseIntC (c :: r)).map (fun p => (JVal.int p.1, p.2)) := by
  simp [parseVal, hl, h1, h2, h3]

theorem quoteStr_cons (s : String) (x : List Char) :
    quoteStr s ++ x = '"' :: (escChars s.data ++ ('"' :: x)) := by
  simp [quoteStr]

theorem skipWs_quoteStr (s : String) (x : List Char) :
    skipWs (quoteStr s ++ x) = quoteStr s ++ x := by
  rw [quoteStr_cons s x]
  exact skipWs_not_ws (by decide) _

theorem skipWs_dumpVal (d : Nat) (v : JVal) (x : List Char) :
    skipWs (dumpVal d v ++ x) = dumpVal d v ++ x := by
  cases v with
  | str s => exact skipWs_quoteStr s x
  | int n =>
    by_cases hn : n < 0
    · rw [show dumpVal d (JVal.int n) ++ x = '-' :: (natChars n.natAbs ++ x) by
        simp [dumpVal, intChars, hn]]
      exact skipWs_not_ws (by decide) _
    · obtain ⟨c0, t0, hn0, hc0⟩ := natChars_head n.natAbs
      rw [show dumpVal d (JVal.int n) ++ x = c0 :: (t0 ++ x) by
        simp [dumpVal, intChars, hn, hn0]]
      exact skipWs_not_ws (isDigitC_facts hc0).2.2.2 _
  | arrStr ss =>
    cases ss with
    | nil =>
      rw [show dumpVal d (JVal.arrStr []) ++ x = '[' :: (']' :: x) by simp [dumpVal]]
      exact skipWs_not_ws (by decide) _
    | cons s ss' =>
      rw [show dumpVal d (JVal.arrStr (s :: ss')) ++ x =
          '[' :: ('\n' :: (spacesL (2 * (d + 1)) ++ (quoteStr s ++ (arrTail d ss' ++ x)))) by
        simp [dumpVal]]
      exact skipWs_not_ws (by decide) _

theorem arrTail_len (d : Nat) (ss : List String) :
    ss.length ≤ (arrTail d ss).length := by
  induction ss with
  | nil => simp [arrTail]
  | cons s rest ih =>
    simp only [arrTail, List.length_cons, List.length_append]
    omega

theorem objTail_len (d : Nat) (ps : List (String × JVal)) :
    ps.length ≤ (objTail d ps).length := by
  induction ps with
  | nil => simp [objTail]
  | cons p rest ih =>
    obtain ⟨k, v⟩ := p
    simp only [objTail, List.length_cons, List.length_append]
    omega

theorem topTail_len (ms : List (List (String × JVal))) :
    ms.length ≤ (topTail ms).length := by
  induction ms with
  | nil => simp [topTail]
  | cons m rest ih =>
    simp only [topTail, List.length_cons, List.length_append]
    omega

theorem parseArrStr_items (d : Nat) (ss : List String) :
    ∀ (s : String) (l rest : List Char) (fuel : Nat),
    skipWs l = quoteStr s ++ (arrTail d ss ++ rest) → ss.length < fuel →
    parseArrStr fuel l = some (s :: ss, rest) := by
  induction ss with
  | nil =>
    intro s l rest fuel hl hfuel
    match fuel, hfuel with
    | f + 1, _ =>
      rw [parseArrStr, hl]
      rw [show quoteStr s ++ (arrTail d [] ++ rest) =
          quoteStr s ++ ('\n' :: (spacesL (2 * d) ++ (']' :: rest))) by simp [arrTail]]
      rw [parseJStr_quote]
      simp only []
      rw [skipWs_nl, skipWs_spaces, skipWs_not_ws (by decide)]
      rfl
  | cons s2 ss' ih =>
    intro s l rest fuel hl hfuel
    match fuel, hfuel with
    | f + 1, hfuel =>
      rw [parseArrStr, hl]
      rw [show quoteStr s ++ (arrTail d (s2 :: ss') ++ rest) =
          quoteStr s ++ (',' :: ('\n' ::
            (spacesL (2 * (d + 1)) ++ (quoteStr s2 ++ (arrTail d ss' ++ rest))))) by
        simp [arrTail]]
      rw [parseJStr_quote]
      simp only []
      rw [skipWs_not_ws (by decide)]
      simp only []
      rw [ih s2 ('\n' :: (spacesL (2 * (d + 1)) ++ (quoteStr s2 ++ (arrTail d ss' ++ rest))))
        rest f
        (by rw [skipWs_nl, skipWs_spaces, skipWs_quoteStr])
        (by simpa using Nat.lt_of_succ_lt_succ hfuel)]

theorem parseVal_dump (d : Nat) (v : JVal) (l rest : List Char)
    (hl : skipWs l = dumpVal d v ++ rest) (hrest : notDigitHead rest = true) :
    parseVal l = some (v, rest) := by
  cases v with
  | str s =>
    rw [parseVal_str_arm l (escChars s.data ++ ('"' :: rest))
      (by rw [hl]; exact quoteStr_cons s rest)]
    rw [show ('"' :: (escChars s.data ++ ('"' :: rest))) = quoteStr s ++ rest from
      (quoteStr_cons s rest).symm]
    rw [parseJStr_quote]
    rfl
  | int n =>
    by_cases hn : n < 0
    · have hshape : dumpVal d (JVal.int n) ++ rest =
          '-' :: (natChars n.natAbs ++ rest) := by
        simp [dumpVal, intChars, hn]
      rw [parseVal_int_arm l (natChars n.natAbs ++ rest) '-'
        (by rw [hl, hshape]) (by decide) (by decide) (Or.inl rfl)]
      rw [show '-' :: (natChars n.natAbs ++ rest) = intChars n ++ rest by
        simp [intChars, hn]]
      rw [parseIntC_intChars n rest hrest]
      rfl
    · obtain ⟨c0, t0, hn0, hc0⟩ := natChars_head n.natAbs
      obtain ⟨hq, hb, hm, _⟩ := isDigitC_facts hc0
      have hshape : dumpVal d (JVal.int n) ++ rest = c0 :: (t0 ++ rest) := by
        simp [dumpVal, intChars, hn, hn0]
      rw [parseVal_int_arm l (t0 ++ rest) c0 (by rw [hl, hshape]) hq hb (Or.inr hc0)]
      rw [show c0 :: (t0 ++ rest) = intChars n ++ rest by
        simp [intChars, hn, hn0]]
      rw [parseIntC_intChars n rest hrest]
      rfl
  | arrStr ss =>
    cases ss with
    | nil =>
      have hshape : dumpVal d (JVal.arrStr []) ++ rest = '[' :: (']' :: rest) := by
        simp [dumpVal]
      exact parseVal_arr_nil_arm l (']' :: rest) rest (by rw [hl, hshape])
        (skipWs_not_ws (by decide) rest)
    | cons s ss' =>
      have hshape : dumpVal d (JVal.arrStr (s :: ss')) ++ rest =
          '[' :: ('\n' :: (spacesL (2 * (d + 1)) ++ (quoteStr s ++ (arrTail d ss' ++ rest)))) := by
        simp [dumpVal]
      have hq : quoteStr s ++ (arrTail d ss' ++ rest) =
          '"' :: (escChars s.data ++ ('"' :: (arrTail d ss' ++ rest))) := quoteStr_cons s _
      have hr : skipWs ('\n' :: (spacesL (2 * (d + 1)) ++ (quoteStr s ++ (arrTail d ss' ++ rest)))) =
          '"' :: (escChars s.data ++ ('"' :: (arrTail d ss' ++ rest))) := by
        rw [skipWs_nl, skipWs_spaces, hq, skipWs_not_ws (by decide)]
      rw [parseVal_arr_cons_arm l _ _ '"' (by rw [hl, hshape]) hr (by decide)]
      rw [parseArrStr_items d ss' s _ rest _
        (by rw [skipWs_not_ws (by decide), ← hq])
        (by
          have h1 := arrTail_len d ss'
          simp only [List.length_cons, List.length_append]
          omega)]
      rfl

theorem parsePairs_items (d : Nat) (ps : List (String × JVal)) :
    ∀ (k : String) (v : JVal) (l rest : List Char) (fuel : Nat),
    skipWs l = quoteStr k ++ (':' :: ' ' :: (dumpVal (d + 1) v ++ (objTail d ps ++ rest))) →
    ps.length < fuel →
    parsePairs fuel l = some ((k, v) :: ps, rest) := by
  induction ps with
  | nil =>
    intro k v l rest fuel hl hfuel
    match fuel, hfuel with
    | f + 1, _ =>
      rw [parsePairs, hl, parseJStr_quote]
      simp only []
      rw [skipWs_not_ws (by decide)]
      simp only []
      rw [parseVal_dump (d + 1) v (' ' :: (dumpVal (d + 1) v ++ (objTail d [] ++ rest)))
        (objTail d [] ++ rest)
        (by rw [skipWs_space, skipWs_dumpVal])
        (by rw [show objTail d [] ++ rest = '\n' :: (spacesL (2 * d) ++ ('}' :: rest)) by
              simp [objTail]]
            exact notDigitHead_nl _)]
      simp only []
      rw [show objTail d [] ++ rest = '\n' :: (spacesL (2 * d) ++ ('}' :: rest)) by
        simp [objTail]]
      rw [skipWs_nl, skipWs_spaces, skipWs_not_ws (by decide)]
      rfl
  | cons p ps' ih =>
    intro k v l rest fuel hl hfuel
    obtain ⟨k2, v2⟩ := p
    match fuel, hfuel with
    | f + 1, hfuel =>
      rw [parsePairs, hl, parseJStr_quote]
      simp only []
      rw [skipWs_not_ws (by decide)]
      simp only []
      rw [parseVal_dump (d + 1) v
        (' ' :: (dumpVal (d + 1) v ++ (objTail d ((k2, v2) :: ps') ++ rest)))
        (objTail d ((k2, v2) :: ps') ++ rest)
        (by rw [skipWs_space, skipWs_dumpVal])
        (by rw [show objTail d ((k2, v2) :: ps') ++ rest = ',' :: ('\n' ::
              (spacesL (2 * (d + 1)) ++ (quoteStr k2 ++ ':' :: ' ' ::
                (dumpVal (d + 1) v2 ++ (objTail d ps' ++ rest))))) by simp [objTail]]
            exact notDigitHead_comma _)]
      simp only []
      rw [show objTail d ((k2, v2) :: ps') ++ rest = ',' :: ('\n' ::
          (spacesL (2 * (d + 1)) ++ (quoteStr k2 ++ ':' :: ' ' ::
            (dumpVal (d + 1) v2 ++ (objTail d ps' ++ rest))))) by simp [objTail]]
      rw [skipWs_not_ws (by decide)]
      simp only []
      rw [ih k2 v2 ('\n' :: (spacesL (2 * (d + 1)) ++ (quoteStr k2 ++ ':' :: ' ' ::
          (dumpVal (d + 1) v2 ++ (objTail d ps' ++ rest))))) rest f
        (by rw [skipWs_nl, skipWs_spaces, skipWs_quoteStr])
        (by simpa using Nat.lt_of_succ_lt_succ hfuel)]

theorem skipWs_dumpObj (d : Nat) (m : List (String × JVal)) (x : List Char) :
    skipWs (dumpObj d m ++ x) = dumpObj d m ++ x := by
  cases m with
  | nil => exact skipWs_not_ws (by decide) _
  | cons p ps =>
    obtain ⟨k, v⟩ := p
    exact skipWs_not_ws (by decide) _

theorem parseObj_dump (m : List (String × JVal)) (l rest : List Char)
    (hl : skipWs l = dumpObj 1 m ++ rest) :
    parseObj l = some (m, rest) := by
  cases m with
  | nil =>
    rw [parseObj, hl]
    rw [show dumpObj 1 [] ++ rest = '{' :: ('}' :: rest) by simp [dumpObj]]
    simp only []
    rw [if_pos (by trivial), skipWs_not_ws (by decide)]
    simp only []
    rw [if_pos (by trivial)]
  | cons p ps =>
    obtain ⟨k, v⟩ := p
    have hshape : dumpObj 1 ((k, v) :: ps) ++ rest =
        '{' :: ('\n' :: (spacesL 4 ++ (quoteStr k ++ ':' :: ' ' ::
          (dumpVal 2 v ++ (objTail 1 ps ++ rest))))) := by
      simp [dumpObj]
    rw [parseObj, hl, hshape]
    simp only []
    rw [if_pos (by trivial)]
    have hr : skipWs ('\n' :: (spacesL 4 ++ (quoteStr k ++ ':' :: ' ' ::
        (dumpVal 2 v ++ (objTail 1 ps ++ rest))))) =
        '"' :: (escChars k.data ++ ('"' :: (':' :: ' ' ::
          (dumpVal 2 v ++ (objTail 1 ps ++ rest))))) := by
      rw [skipWs_nl, skipWs_spaces, ← quoteStr_cons, skipWs_quoteStr, quoteStr_cons]
    rw [hr]
    simp only []
    rw [if_neg (by decide)]
    rw [parsePairs_items 1 ps k v _ rest _
      (by rw [skipWs_not_ws (by decide), ← quoteStr_cons])
      (by
        have h1 := objTail_len 1 ps
        simp only [List.length_cons, List.length_append]
        omega)]

theorem parseObjList_items (ms : List (List (String × JVal))) :
    ∀ (m : List (String × JVal)) (l rest : List Char) (fuel : Nat),
    skipWs l = dumpObj 1 m ++ (topTail ms ++ rest) → ms.length < fuel →
    parseObjList fuel l = some (m :: ms, rest) := by
  induction ms with
  | nil =>
    intro m l rest fuel hl hfuel
    match fuel, hfuel with
    | f + 1, _ =>
      rw [parseObjList]
      rw [parseObj_dump m l (topTail [] ++ rest) hl]
      simp only []
      rw [show topTail [] ++ rest = '\n' :: (']' :: rest) by simp [topTail]]
      rw [skipWs_nl, skipWs_not_ws (by decide)]
      rfl
  | cons m2 ms' ih =>
    intro m l rest fuel hl hfuel
    match fuel, hfuel with
    | f + 1, hfuel =>
      rw [parseObjList]
      rw [parseObj_dump m l (topTail (m2 :: ms') ++ rest) hl]
      simp only []
      rw [show topTail (m2 :: ms') ++ rest = ',' :: ('\n' ::
          (spacesL 2 ++ (dumpObj 1 m2 ++ (topTail ms' ++ rest)))) by simp [topTail]]
      rw [skipWs_not_ws (by decide)]
      simp only []
      rw [ih m2 ('\n' :: (spacesL 2 ++ (dumpObj 1 m2 ++ (topTail ms' ++ rest)))) rest f
        (by rw [skipWs_nl, skipWs_spaces, skipWs_dumpObj])
        (by simpa using Nat.lt_of_succ_lt_succ hfuel)]

theorem parseTop_dumpTop (ms : List (List (String × JVal))) :
    parseTop (dumpTop ms) = some ms := by
  cases ms with
  | nil => rfl
  | cons m ms' =>
    have h1 : skipWs (dumpTop (m :: ms')) =
        '[' :: ('\n' :: (spacesL 2 ++ (dumpObj 1 m ++ topTail ms'))) := by
      rw [dumpTop]
      exact skipWs_not_ws (by decide) _
    rw [parseTop, h1]
    simp only []
    rw [if_pos (by trivial)]
    have h2 : skipWs ('\n' :: (spacesL 2 ++ (dumpObj 1 m ++ topTail ms'))) =
        dumpObj 1 m ++ topTail ms' := by
      rw [skipWs_nl, skipWs_spaces, skipWs_dumpObj]
    rw [h2]
    cases hobj : dumpObj 1 m ++ topTail ms' with
    | nil =>
      exfalso
      cases m with
      | nil => simp [dumpObj] at hobj
      | cons p ps =>
        obtain ⟨k, v⟩ := p
        simp [dumpObj] at hobj
    | cons c2 r2 =>
      have hc2 : c2 = '{' := by
        cases m with
        | nil => simp [dumpObj] at hobj; exact hobj.1.symm
        | cons p ps =>
          obtain ⟨k, v⟩ := p
          simp [dumpObj] at hobj
          exact hobj.1.symm
      subst hc2
      simp only []
      rw [if_neg (by decide)]
      rw [parseObjList_items ms' m ('{' :: r2) [] (('{' :: r2).length + 1)
        (by
          rw [skipWs_not_ws (by decide), ← hobj, List.append_nil])
        (by
          have h3 := topTail_len ms'
          have h4 : (dumpObj 1 m ++ topTail ms').length = r2.length + 1 := by
            rw [hobj]; simp
          simp only [List.length_append] at h4
          simp only [List.length_cons]
          omega)]
      rfl

/-! ## Message-level lemmas -/

theorem msgFromPairs_msgPairs (m : ConvMessage) : msgFromPairs (msgPairs m) = some m := by
  cases m with
  | user c t fs => cases fs <;> rfl
  | assistant c u cr t os => cases os <;> rfl

theorem msgsFromObjs_map (msgs : List ConvMessage) :
    msgsFromObjs (msgs.map msgPairs) = some msgs := by
  induction msgs with
  | nil => rfl
  | cons m rest ih =>
    rw [List.map_cons, msgsFromObjs, msgFromPairs_msgPairs, ih]

/-! ## The claims -/

/-- Claim C1, counterexample: the claim's terminal set contains
`pending_input`, but the loop does not stop on a `pending_input`
snapshot — it sleeps and polls again, here returning the second
(`completed`) snapshot after two polls and one 3-unit sleep instead of
the first snapshot after one poll. -/
theorem poll_ignores_pending_input :
    specTerminalStatus taskPendingInputC1.status = true ∧
    poll_task_status seqC1 5 = .terminal taskCompletedC1 2 3 ∧
    ¬ poll_task_status seqC1 5 = .terminal taskPendingInputC1 1 0 := by
  decide

/-- Claim C1 (amended: the statuses the loop stops on are `completed`,
`error` and `pending` — not `pending_input`): for every snapshot
sequence, the loop stops and returns the current snapshot exactly at the
first snapshot with such a status, after `i + 1` retrieval calls and a
fixed 3-unit sleep for each of the `i` earlier non-terminal polls; run
for only the first `i` polls it is still going. -/
theorem poll_stops_at_first_code_terminal (seq : Nat → PollStep) (fuel i : Nat) (t : Task)
    (hpre : ∀ j, j < i → nonTermOk seq j = true)
    (hi : seq i = PollStep.ok t)
    (ht : isTerminalStatus t.status = true)
    (hfuel : i < fuel) :
    poll_task_status seq fuel = .terminal t (i + 1) (3 * i) ∧
    poll_task_status seq i = .running := by
  constructor
  · exact pollLoop_terminal seq fuel 0 i t (fun j _ hj => hpre j hj) (Nat.zero_le i) hi ht
      (by omega)
  · exact pollLoop_running seq i 0 (fun j _ hj => hpre j (by omega))

/-- Witness for the amended claim C1: `running, running, completed` stops
at the third snapshot with two 3-unit sleeps. -/
theorem poll_stops_at_first_code_terminal_w :
    poll_task_status seqW 5 = .terminal taskDoneW 3 6 ∧
    poll_task_status seqW 2 = .running :=
  poll_stops_at_first_code_terminal seqW 5 2 taskDoneW (by decide) (by decide) (by decide)
    (by decide)

/-- Claim C2, counterexample: on an assistant message with text items
`""` and `"hi"`, the extraction loop yields `"hi\n"` (each non-empty text
item is appended with a trailing newline, empty ones are skipped), while
the claimed newline-join of exactly the text items would be `"\nhi"`. -/
theorem extraction_not_newline_joined :
    (extractOutput [⟨"assistant", [.text "", .text "hi"]⟩]).1 = "hi\n" ∧
    specCombinedReply [⟨"assistant", [.text "", .text "hi"]⟩] = "\nhi" ∧
    ¬ (extractOutput [⟨"assistant", [.text "", .text "hi"]⟩]).1 =
      specCombinedReply [⟨"assistant", [.text "", .text "hi"]⟩] := by
  decide

/-- Claim C2 (amended: the combined reply concatenates each non-empty
text item followed by a newline — newline-terminated rather than
newline-joined, empty text items skipped): the extraction loop returns
exactly that string together with exactly the `output_file` filenames of
the assistant-role messages in message and content-item order; user-role
messages contribute nothing to either component. -/
theorem extraction_texts_and_files (out : List OutMessage) :
    extractOutput out =
      (concatAll (((assistantTextItems out).filter
          (fun s => !(s == ""))).map (fun s => s ++ "\n")),
       assistantFileNames out) := by
  rw [extractOutput, extractMsgs_spec]
  constructor

/-- Claim C3: on a completed task run the chat handler adds exactly the
metadata's `credit_usage` value to the session counter — taking 0 when
the entry is absent, and leaving the counter unchanged (an increment of
0) when the entry is a non-numeric string, where the handler's `+=`
raises before touching it.  The conclusion depends only on the returned
snapshot, not on `p`, `e` or the intermediate polls: the increment
happens exactly once per completed task and never during polling. -/
theorem chat_credit_increment (s : SessionState) (now input : String)
    (resp : CreateResp) (seq : Nat → PollStep) (fuel : Nat) (t : Task) (p e : Nat)
    (hpoll : pollLoop seq fuel 0 = .terminal t p e)
    (hst : t.status = "completed") :
    (chatStep s now input (some resp) seq fuel).total_credits_used =
      s.total_credits_used + specCreditOf (mLookup t.metadata "credit_usage") := by
  simp only [chatStep, hpoll, chatPollCase]
  cases hm : mLookup t.metadata "credit_usage" with
  | none => simp [chatCreditCase, chatFinish, specCreditOf]
  | some v =>
    cases v with
    | int k => simp [chatCreditCase, chatFinish, specCreditOf]
    | str v => simp [chatCreditCase, specCreditOf]

/-- Witness for claim C3: the spec's own scenario — a task completing
with `credit_usage: 2` adds 2 to a fresh session's counter. -/
theorem chat_credit_increment_w :
    (chatStep initState "ts" "Summarize this text" (some respC3) seqC3 1).total_credits_used =
      initState.total_credits_used + specCreditOf (mLookup taskDoneC3.metadata "credit_usage") :=
  chat_credit_increment initState "ts" "Summarize this text" respC3 seqC3 1 taskDoneC3 1 0
    (by decide) (by decide)

/-- Claim C4, counterexample: nothing in the code keeps the counter from
decreasing when the remote metadata reports a negative `credit_usage`; a
single completed task reporting `-5` takes a fresh session's counter from
0 to -5. -/
theorem credit_counter_can_decrease :
    initState.total_credits_used = 0 ∧
    (applyOps initState
      [.chat "ts" "hi" (some ⟨"task-d", []⟩) (fun _ => .ok taskNegC4) 1]).total_credits_used
      = -5 := by
  decide

/-- Claim C4 (amended: monotone provided every snapshot the retrieval
call produces reports a non-negative `credit_usage`): the counter starts
at 0 and no sequence of session operations — task runs, new-chat resets,
history loads, file clearing, upload batches — ever decreases it. -/
theorem credit_counter_monotone (ops : List SessionOp) (s : SessionState)
    (h : ∀ op ∈ ops, opCreditsNonneg op) :
    initState.total_credits_used = 0 ∧
    s.total_credits_used ≤ (applyOps s ops).total_credits_used :=
  ⟨rfl, applyOps_total_mono ops s h⟩

/-- Witness for the amended claim C4: a task run with credit 2, a new
chat and a file clearing never decrease the counter. -/
theorem credit_counter_monotone_w :
    initState.total_credits_used = 0 ∧
    initState.total_credits_used ≤
      (applyOps initState
        [.chat "ts" "hi" (some respC3) seqC3 1, .newChat "t0", .clearFiles]).total_credits_used := by
  refine credit_counter_monotone _ initState ?_
  intro op hop
  fin_cases hop
  · intro i t ht
    cases ht
    decide
  · trivial
  · trivial

/-- Claim C5 is unimplemented in the code (code bug relative to the
spec's stated constraint): the upload handlers perform no local size or
extension validation at all.  A 200 MB `.bin` file — over the configured
100 MB limit and with an extension outside the configured allow-list —
still triggers both remote calls (registration and the byte `PUT`) and
is recorded with status `success`; no record ever carries status
`rejected`. -/
theorem upload_no_local_validation :
    defaultConfig.max_file_size_mb * 1024 * 1024 < bigFileC5.size ∧
    defaultConfig.supported_file_types.contains (extract_file_extension bigFileC5.name)
      = false ∧
    (uploadAllFiles "ts" [bigFileC5]).2.1 =
      [.register "big.bin", .putBytes "https://upload.manus.im/slot1"] ∧
    ((uploadAllFiles "ts" [bigFileC5]).1.map (fun r => r.status)) = ["success"] := by
  decide

/-- Claim C6: the upload batch handler processes every file and returns
one record per file in input order (a failing file never aborts the
batch); by `mkUploadRecord`, a file whose registration or byte upload
failed gets status `failed` and no id.  The chat page's staging handler
stages exactly the files whose upload returned a truthy id (`stageOf`),
so a failed file's id is never staged and hence never attached to a
task. -/
theorem upload_batch_partial_failure (now : String) (files : List FileInput) :
    (uploadAllFiles now files).1 = files.map (mkUploadRecord now) ∧
    processUploadsGo files [] = files.filterMap stageOf := by
  constructor
  · simpa using uploadAllGo_records now files [] [] 0
  · simpa using processUploadsGo_spec files []

/-- Claim C7: a transport error raised during polling aborts the loop at
that poll (the error message is reported back), and the chat handler
then leaves the session unchanged apart from the already-stored user
message: the credit counter, the history and the staged files are
untouched, and no assistant message is appended. -/
theorem poll_abort_leaves_session (s : SessionState) (now input : String)
    (resp : CreateResp) (seq : Nat → PollStep) (fuel i : Nat) (m : String)
    (hpre : ∀ j, j < i → nonTermOk seq j = true)
    (hexn : seq i = .exn m)
    (hfuel : i < fuel) :
    poll_task_status seq fuel = .aborted m (i + 1) (3 * i) ∧
    (chatStep s now input (some resp) seq fuel).total_credits_used =
      s.total_credits_used ∧
    (chatStep s now input (some resp) seq fuel).messages =
      s.messages ++ [.user input now
        (if s.uploaded_files ≠ [] then some (s.uploaded_files.map (·.name)) else none)] ∧
    (∀ msg ∈ (chatStep s now input (some resp) seq fuel).messages,
      msg.role = "assistant" → msg ∈ s.messages) ∧
    (chatStep s now input (some resp) seq fuel).conversation_history =
      s.conversation_history ∧
    (chatStep s now input (some resp) seq fuel).uploaded_files = s.uploaded_files := by
  have hpoll : pollLoop seq fuel 0 = .aborted m (i + 1) (3 * i) :=
    pollLoop_aborted seq fuel 0 i m (fun j _ hj => hpre j hj) (Nat.zero_le i) hexn (by omega)
  refine ⟨hpoll, ?_, ?_, ?_, ?_, ?_⟩
  · simp [chatStep, hpoll, chatPollCase]
  · simp [chatStep, hpoll, chatPollCase]
  · simp only [chatStep, hpoll, chatPollCase]
    intro msg hmem hrole
    rcases List.mem_append.mp hmem with hin | hin
    · exact hin
    · rcases List.mem_singleton.mp hin with rfl
      simp [ConvMessage.role] at hrole
  · simp [chatStep, hpoll, chatPollCase]
  · simp [chatStep, hpoll, chatPollCase]

/-- Witness for claim C7: a run that polls once, then hits a raised
transport error on the second retrieval. -/
theorem poll_abort_leaves_session_w :
    poll_task_status seqC7 3 = .aborted "Connection aborted" 2 3 ∧
    (chatStep initState "ts" "hi" (some ⟨"task-e", []⟩) seqC7 3).total_credits_used =
      initState.total_credits_used ∧
    (chatStep initState "ts" "hi" (some ⟨"task-e", []⟩) seqC7 3).conversation_history =
      initState.conversation_history := by
  have h := poll_abort_leaves_session initState "ts" "hi" ⟨"task-e", []⟩ seqC7 3 1
    "Connection aborted" (by decide) (by decide) (by decide)
  exact ⟨h.1, h.2.1, h.2.2.2.2.1⟩

/-- Claim C8: `ManusConfig.validate` accepts exactly when the API key is
present (truthy), the timeout lies within [60, 600] and the task fetch
limit lies within [1, max_task_limit]; in particular 599 seconds is
accepted and 601 rejected.  `validate` is a pure local check — no remote
call occurs in it. -/
theorem config_validate_bounds (c : ManusConfig) :
    (c.validate = true ↔
      (keyTruthy c.api_key = true ∧
       60 ≤ c.default_timeout_seconds ∧ c.default_timeout_seconds ≤ 600 ∧
       1 ≤ c.default_task_limit ∧ c.default_task_limit ≤ c.max_task_limit)) ∧
    ManusConfig.validate
      { defaultConfig with api_key := some "key", default_timeout_seconds := 599 } = true ∧
    ManusConfig.validate
      { defaultConfig with api_key := some "key", default_timeout_seconds := 601 } = false := by
  refine ⟨?_, by decide, by decide⟩
  simp only [ManusConfig.validate]
  split_ifs with h1 h2 h3 <;> constructor <;> intro hh <;> simp_all <;> omega

/-- Claim C10: New Chat appends the current conversation to the history
exactly when the active message list is non-empty — invoked on an empty
conversation it leaves the history unchanged — and consequently every
history entry of a session reachable from the initial state holds a
non-empty message list. -/
theorem new_chat_history_nonempty (s : SessionState) (now : String) (ops : List SessionOp) :
    (applyOp s (.newChat now)).conversation_history =
      (if s.messages = [] then s.conversation_history
       else s.conversation_history ++ [⟨now, s.messages, s.task_count, s.total_credits_used⟩]) ∧
    histNonempty (applyOps initState ops) = true := by
  constructor
  · simp only [applyOp, save_conversation_to_history]
    split_ifs with h h2 <;> simp_all
  · exact applyOps_hist_nonempty ops initState (by decide)

/-- Claim C9: for every conversation message sequence, exporting it with the
json branch of `export_conversation_history` (which is
`json.dumps(messages, indent=2)`) and parsing the output back with
`json.loads` reproduces the very same ordered message sequence — and hence,
in particular, the same ordered sequence of role/content pairs. -/
theorem export_json_roundtrip (msgs : List ConvMessage) :
    json_loads_messages (export_conversation_history_json msgs) = some msgs ∧
    (json_loads_messages (export_conversation_history_json msgs)).map
      (List.map roleContent) = some (msgs.map roleContent) := by
  have h : json_loads_messages (export_conversation_history_json msgs) = some msgs := by
    rw [json_loads_messages, export_conversation_history_json]
    rw [show (String.mk (dumpTop (msgs.map msgPairs))).data =
      dumpTop (msgs.map msgPairs) from rfl]
    rw [parseTop_dumpTop, Option.some_bind, msgsFromObjs_map]
  exact ⟨h, by rw [h]; rfl⟩

end Manus
